import Mathlib

/-!
# Verification of the ffmpeg-rest composition planning layer

Shallow embedding of the composition planning layer of the `ffmpeg-rest`
service, together with proofs about its caption timing compiler
(`src/utils/ass-generator.ts`), its filter-graph builder and job orchestration
(`src/queue/video/processor.ts`), and its transition/merge compiler and
proportional overlay scaler (`processVideoMerge` / `processVideoOverlay`).

Seconds and pixel counts are modelled as exact rationals; JavaScript
`Math.round` / `Math.floor` and the `%` remainder on non-negative operands are
modelled by the corresponding exact operations on `ℚ`.
-/

namespace FfmpegRest

/-- JavaScript `Math.round`: round half toward positive infinity. -/
def jsRound (q : ℚ) : ℤ := ⌊q + 1 / 2⌋

/-- JavaScript `%` on a non-negative left operand and positive modulus
(`a % b = a - b * trunc (a / b)`, and `trunc = floor` there). -/
def jsMod (a b : ℚ) : ℚ := a - b * ⌊a / b⌋

/-- A word-level timing datum (`WordTimestamp` in `src/utils/ass-generator.ts`):
the word text plus its start and end in seconds. -/
structure WordTimestamp where
  word : String
  start : ℚ
  «end» : ℚ
deriving DecidableEq

/-- A caption segment as produced by `segmentWords` in
`src/utils/ass-generator.ts`: a display window plus the words shown in it. -/
structure CaptionSegment where
  startTime : ℚ
  endTime : ℚ
  words : List WordTimestamp
deriving DecidableEq

/-- The gap test at `ass-generator.ts:118`:
`timestamps[index + 1].start - timestamp.end > 0.3` (there is a next word and
it starts more than 300 ms after the current word ends). -/
def nextGapB (t : WordTimestamp) : List WordTimestamp → Bool
  | [] => false
  | next :: _ => decide ((3 : ℚ) / 10 < next.start - t.«end»)

/-- The `timestamps.forEach` loop of `segmentWords`
(`ass-generator.ts:103-131`), as structural recursion over the remaining
words.  `curr` is `currentSegment`, `segStart` is `segmentStartTime`; a
segment is closed when the current word is the last one, the segment is full,
or the next word starts after a more-than-300 ms gap. -/
def segmentWordsGo (maxW : ℕ) : List WordTimestamp → List WordTimestamp → ℚ → List CaptionSegment
  | [], _curr, _segStart => []
  | t :: rest, curr, segStart =>
    if rest.isEmpty || decide (maxW ≤ (curr ++ [t]).length) || nextGapB t rest then
      ⟨if curr.isEmpty then t.start else segStart, t.«end», curr ++ [t]⟩ ::
        segmentWordsGo maxW rest [] (if curr.isEmpty then t.start else segStart)
    else
      segmentWordsGo maxW rest (curr ++ [t]) (if curr.isEmpty then t.start else segStart)

/-- `segmentWords` from `src/utils/ass-generator.ts:86-134`: greedily group the
timestamps into phrases of at most `maxW` words, splitting at natural pauses. -/
def segmentWords (timestamps : List WordTimestamp) (maxW : ℕ) : List CaptionSegment :=
  segmentWordsGo maxW timestamps [] 0

/-- `highlightStartMs` as computed at `ass-generator.ts:67`:
`Math.round(wordInfo.start * 1000)` (absolute video time in milliseconds). -/
def highlightStartMs (w : WordTimestamp) : ℤ := jsRound (w.start * 1000)

/-- `highlightEndMs` as computed at `ass-generator.ts:68`:
`Math.round(wordInfo.end * 1000)` (absolute video time in milliseconds). -/
def highlightEndMs (w : WordTimestamp) : ℤ := jsRound (w.«end» * 1000)

/-- Structured content of one inline `\t` animation tag: the colour the word
is rendered in initially, and the scheduled colour transitions as
`(startOffsetMs, endOffsetMs, targetColour)` triples. -/
structure WordAnimation where
  initialColor : String
  transitions : List (ℤ × ℤ × String)
deriving DecidableEq

/-- The animation tag built for every word at `ass-generator.ts:71`:
`{\1c${primary}&\t(${hs},${hs},\1c${highlight}&)\t(${he},${he},\1c${primary}&)}`
— the word starts in the primary colour and two transitions are scheduled at
the word's absolute start and end milliseconds.  The same tag is used for
every word of a segment, the first word included. -/
def wordAnimationTag (primaryColor highlightColor : String) (w : WordTimestamp) : WordAnimation :=
  { initialColor := primaryColor
    transitions := [(highlightStartMs w, highlightStartMs w, highlightColor),
                    (highlightEndMs w, highlightEndMs w, primaryColor)] }

/-- The dialogue events emitted by `generateASS` (`ass-generator.ts:59-78`):
one event per segment, carrying the per-word animation tags in order. -/
def dialogueEvents (primaryColor highlightColor : String)
    (timestamps : List WordTimestamp) (maxW : ℕ) :
    List (CaptionSegment × List WordAnimation) :=
  (segmentWords timestamps maxW).map fun seg =>
    (seg, seg.words.map (wordAnimationTag primaryColor highlightColor))

/-! ## Invariants of the segmentation loop -/

/-- The remaining timestamps, the accumulated current segment and the recorded
segment start jointly determine the produced segments: they are ordered and
non-overlapping, each is non-degenerate, and each starts no earlier than the
first still-relevant word.  Hypotheses: every word is non-degenerate, the words
are mutually ordered (each word ends no later than any later word starts), and
`segStart` caches the start of the first accumulated word. -/
theorem segmentWordsGo_spec (maxW : ℕ) (ts : List WordTimestamp) :
    ∀ (curr : List WordTimestamp) (segStart : ℚ),
      (∀ w ∈ curr ++ ts, w.start ≤ w.«end») →
      ((curr ++ ts).Pairwise fun a b => a.«end» ≤ b.start) →
      (∀ c cs, curr = c :: cs → segStart = c.start) →
      ((segmentWordsGo maxW ts curr segStart).Pairwise fun s1 s2 => s1.endTime ≤ s2.startTime) ∧
      (∀ s ∈ segmentWordsGo maxW ts curr segStart, s.startTime ≤ s.endTime) ∧
      (∀ s ∈ segmentWordsGo maxW ts curr segStart, ∀ c,
        (curr ++ ts).head? = some c → c.start ≤ s.startTime) := by
  induction ts with
  | nil =>
    intro curr segStart _h1 _h2 _hcs
    simp [segmentWordsGo]
  | cons t rest ih =>
    intro curr segStart h1 h2 hcs
    have hmem_t : t ∈ curr ++ t :: rest := by simp
    have ht : t.start ≤ t.«end» := h1 t hmem_t
    -- the start cached for the segment currently being built
    have hstart : ∀ c, (curr ++ t :: rest).head? = some c →
        c.start ≤ (if curr.isEmpty then t.start else segStart) ∧
        (if curr.isEmpty then t.start else segStart) ≤ t.«end» := by
      intro c hc
      cases curr with
      | nil =>
        have hceq : t = c := by simpa using hc
        rw [← hceq]
        simp [ht]
      | cons c0 cs =>
        have hceq : c0 = c := by simpa using hc
        have hs0 : segStart = c.start := by
          have := hcs c0 cs rfl
          rwa [hceq] at this
        have hc0e : c.start ≤ c.«end» := h1 c (by rw [← hceq]; simp)
        have hct : c.«end» ≤ t.start := by
          have hrel := (List.pairwise_cons.mp h2).1 t (by simp)
          rwa [hceq] at hrel
        simp only [List.isEmpty_cons, if_neg Bool.false_ne_true, hs0]
        constructor
        · exact le_refl _
        · linarith
    -- pairwise order information restricted to the tail
    have h1rest : ∀ w ∈ ([] : List WordTimestamp) ++ rest, w.start ≤ w.«end» := by
      intro w hw
      exact h1 w (by simp at hw ⊢; right; right; exact hw)
    have h2dup : (t :: rest).Pairwise fun a b => a.«end» ≤ b.start :=
      h2.sublist (List.sublist_append_right curr (t :: rest))
    have h2rest : (([] : List WordTimestamp) ++ rest).Pairwise fun a b => a.«end» ≤ b.start := by
      simpa using (List.pairwise_cons.mp h2dup).2
    have htr : ∀ r ∈ rest, t.«end» ≤ r.start := (List.pairwise_cons.mp h2dup).1
    have hhead_rest : ∀ c, (curr ++ t :: rest).head? = some c →
        ∀ r, rest.head? = some r → c.start ≤ r.start := by
      intro c hc r hr
      have hrmem : r ∈ rest := by
        cases rest with
        | nil => simp at hr
        | cons a l => simp at hr; simp [hr]
      cases curr with
      | nil =>
        have hceq : t = c := by simpa using hc
        rw [← hceq]
        exact le_trans ht (htr r hrmem)
      | cons c0 cs =>
        have hceq : c0 = c := by simpa using hc
        have hc0e : c.start ≤ c.«end» := h1 c (by rw [← hceq]; simp)
        have hcr : c.«end» ≤ r.start := by
          have hrel := (List.pairwise_cons.mp h2).1 r (by simp [hrmem])
          rwa [hceq] at hrel
        linarith
    rw [segmentWordsGo]
    by_cases hcl : (rest.isEmpty || decide (maxW ≤ (curr ++ [t]).length) || nextGapB t rest) = true
    · rw [if_pos hcl]
      obtain ⟨ihP, ihB, ihL⟩ := ih [] (if curr.isEmpty then t.start else segStart) h1rest h2rest
        (by intro c cs h; cases h)
      refine ⟨?_, ?_, ?_⟩
      · refine List.pairwise_cons.mpr ⟨?_, ihP⟩
        intro s hs
        cases hrest : rest with
        | nil =>
          subst hrest
          simp [segmentWordsGo] at hs
        | cons r rest' =>
          have hr : t.«end» ≤ r.start := htr r (by simp [hrest])
          have := ihL s hs r (by simp [hrest])
          simpa using le_trans hr this
      · intro s hs
        rcases List.mem_cons.mp hs with hs | hs
        · subst hs
          have := hstart
          cases curr with
          | nil => simpa using ht
          | cons c0 cs =>
            have := (hstart c0 (by simp)).2
            simpa using this
        · exact ihB s hs
      · intro s hs c hc
        rcases List.mem_cons.mp hs with hs | hs
        · subst hs
          simpa using (hstart c hc).1
        · cases hrest : rest with
          | nil =>
            subst hrest
            simp [segmentWordsGo] at hs
          | cons r rest' =>
            have h1 := ihL s hs r (by simp [hrest])
            have h2 := hhead_rest c hc r (by simp [hrest])
            simp at h1
            exact le_trans h2 (by simpa using h1)
    · rw [if_neg hcl]
      have hassoc : (curr ++ [t]) ++ rest = curr ++ t :: rest := by simp
      obtain ⟨ihP, ihB, ihL⟩ := ih (curr ++ [t]) (if curr.isEmpty then t.start else segStart)
        (by rw [hassoc]; exact h1) (by rw [hassoc]; exact h2)
        (by
          intro c cs h
          cases curr with
          | nil =>
            simp at h
            simp [h.1]
          | cons c0 cs0 =>
            have : c = c0 := by
              have := congrArg List.head? h
              simp at this
              exact this.symm
            subst this
            simpa using hcs c cs0 rfl)
      refine ⟨ihP, ihB, ?_⟩
      intro s hs c hc
      refine ihL s hs c ?_
      rw [hassoc]
      exact hc

/-- As long as the accumulated segment is strictly below the maximum, every
segment the loop emits has between 1 and `maxW` words. -/
theorem segmentWordsGo_length (maxW : ℕ) (ts : List WordTimestamp) :
    ∀ (curr : List WordTimestamp) (segStart : ℚ), curr.length < maxW →
      ∀ s ∈ segmentWordsGo maxW ts curr segStart,
        1 ≤ s.words.length ∧ s.words.length ≤ maxW := by
  induction ts with
  | nil =>
    intro curr segStart _ s hs
    simp [segmentWordsGo] at hs
  | cons t rest ih =>
    intro curr segStart hlen s hs
    have hpos : 0 < maxW := Nat.lt_of_le_of_lt (Nat.zero_le _) hlen
    rw [segmentWordsGo] at hs
    by_cases hcl : (rest.isEmpty || decide (maxW ≤ (curr ++ [t]).length) || nextGapB t rest) = true
    · rw [if_pos hcl] at hs
      rcases List.mem_cons.mp hs with hs | hs
      · subst hs
        simp only [List.length_append, List.length_cons, List.length_nil]
        omega
      · exact ih [] _ (by simpa using hpos) s hs
    · rw [if_neg hcl] at hs
      have hfull : ¬ maxW ≤ (curr ++ [t]).length := by
        intro h
        refine hcl ?_
        simp only [Bool.or_eq_true, decide_eq_true_eq]
        exact Or.inl (Or.inr h)
      exact ih (curr ++ [t]) _ (Nat.lt_of_not_le hfull) s hs

/-- If any word remains, the words of the emitted segments are exactly the
accumulated words followed by the remaining words, in order. -/
theorem segmentWordsGo_join (maxW : ℕ) (ts : List WordTimestamp) :
    ∀ (curr : List WordTimestamp) (segStart : ℚ), ts ≠ [] →
      ((segmentWordsGo maxW ts curr segStart).map CaptionSegment.words).flatten = curr ++ ts := by
  induction ts with
  | nil =>
    intro curr segStart h
    exact absurd rfl h
  | cons t rest ih =>
    intro curr segStart _
    rw [segmentWordsGo]
    by_cases hcl : (rest.isEmpty || decide (maxW ≤ (curr ++ [t]).length) || nextGapB t rest) = true
    · rw [if_pos hcl]
      cases hrest : rest with
      | nil =>
        subst hrest
        simp [segmentWordsGo]
      | cons r rest' =>
        subst hrest
        have hjoin := ih [] (if curr.isEmpty then t.start else segStart) (by simp)
        simp only [List.map_cons, List.flatten_cons]
        rw [hjoin]
        simp
    · rw [if_neg hcl]
      have hne : rest ≠ [] := by
        intro h
        exact hcl (by simp [h])
      have hjoin := ih (curr ++ [t]) (if curr.isEmpty then t.start else segStart) hne
      rw [hjoin]
      simp

/-- Inside every emitted segment, consecutive words are separated by at most
the 300 ms pause threshold: a longer pause always starts a new segment.
The hypotheses say the accumulated words already satisfy this and that the
link from the last accumulated word to the next incoming word is short. -/
theorem segmentWordsGo_chain (maxW : ℕ) (ts : List WordTimestamp) :
    ∀ (curr : List WordTimestamp) (segStart : ℚ),
      curr.Chain' (fun a b => b.start - a.«end» ≤ 3 / 10) →
      (∀ c, curr.getLast? = some c → ∀ t', ts.head? = some t' → t'.start - c.«end» ≤ 3 / 10) →
      ∀ s ∈ segmentWordsGo maxW ts curr segStart,
        s.words.Chain' fun a b => b.start - a.«end» ≤ 3 / 10 := by
  induction ts with
  | nil =>
    intro curr segStart _ _ s hs
    simp [segmentWordsGo] at hs
  | cons t rest ih =>
    intro curr segStart hchain hlink s hs
    have hcurr' : (curr ++ [t]).Chain' fun a b => b.start - a.«end» ≤ 3 / 10 := by
      rw [List.chain'_append]
      refine ⟨hchain, List.chain'_singleton t, ?_⟩
      intro x hx y hy
      simp at hy
      subst hy
      exact hlink x hx t (by simp)
    rw [segmentWordsGo] at hs
    by_cases hcl : (rest.isEmpty || decide (maxW ≤ (curr ++ [t]).length) || nextGapB t rest) = true
    · rw [if_pos hcl] at hs
      rcases List.mem_cons.mp hs with hs | hs
      · subst hs
        exact hcurr'
      · refine ih [] _ List.chain'_nil ?_ s hs
        intro c hc
        simp at hc
    · rw [if_neg hcl] at hs
      refine ih (curr ++ [t]) _ hcurr' ?_ s hs
      intro c hc t' ht'
      rw [List.getLast?_concat] at hc
      have hct : t = c := Option.some_inj.mp hc
      cases hrest : rest with
      | nil =>
        rw [hrest] at ht'
        simp at ht'
      | cons r rest' =>
        have htr : t' = r := by
          rw [hrest] at ht'
          exact (Option.some_inj.mp ht').symm
        have hgap : ¬ ((3 : ℚ) / 10 < r.start - t.«end») := by
          intro hlt
          apply hcl
          have hg : nextGapB t rest = true := by
            rw [hrest]
            simp [nextGapB, hlt]
          simp [hg]
        rw [htr, ← hct]
        linarith

/-- Two caption segments overlap when their `[startTime, endTime]` intervals
share an interior point. -/
def segmentsOverlap (s1 s2 : CaptionSegment) : Prop :=
  max s1.startTime s2.startTime < min s1.endTime s2.endTime

/-! ## Claim theorems about the caption timing compiler -/

/-- C5 (counterexample): for an arbitrary timestamp sequence the claim fails.
The input below has non-decreasing starts and non-negative word lengths, yet
`segmentWords` (maximum 3) produces the segments `[0, 50]` and `[3, 4]`,
whose intervals properly overlap. -/
theorem segmentWords_overlap_cex :
    segmentWords [⟨"a", 0, 1⟩, ⟨"b", 1, 2⟩, ⟨"c", 2, 50⟩, ⟨"d", 3, 4⟩] 3 =
      [⟨0, 50, [⟨"a", 0, 1⟩, ⟨"b", 1, 2⟩, ⟨"c", 2, 50⟩]⟩, ⟨3, 4, [⟨"d", 3, 4⟩]⟩] ∧
    segmentsOverlap ⟨0, 50, [⟨"a", 0, 1⟩, ⟨"b", 1, 2⟩, ⟨"c", 2, 50⟩]⟩ ⟨3, 4, [⟨"d", 3, 4⟩]⟩ := by
  constructor
  · simp [segmentWords, segmentWordsGo, nextGapB]
    norm_num
  · simp [segmentsOverlap]
    norm_num

/-- C5 (amended): when the input words are non-degenerate and mutually ordered
(each word ends no later than any later word starts), the produced segments
are pairwise time-disjoint — ordered with no interior overlap — so at most one
segment is active at any timestamp. -/
theorem segmentWords_disjoint (ts : List WordTimestamp) (maxW : ℕ)
    (h1 : ∀ w ∈ ts, w.start ≤ w.«end»)
    (h2 : ts.Pairwise fun a b => a.«end» ≤ b.start) :
    ((segmentWords ts maxW).Pairwise fun s1 s2 => s1.endTime ≤ s2.startTime) ∧
    (∀ s ∈ segmentWords ts maxW, s.startTime ≤ s.endTime) ∧
    ((segmentWords ts maxW).Pairwise fun s1 s2 => ¬ segmentsOverlap s1 s2) := by
  obtain ⟨hP, hB, _⟩ := segmentWordsGo_spec maxW ts [] 0
    (by simpa using h1) (by simpa using h2) (by intro c cs h; cases h)
  refine ⟨hP, hB, ?_⟩
  have : ∀ s1 s2, s1 ∈ segmentWords ts maxW → s2 ∈ segmentWords ts maxW →
      s1.endTime ≤ s2.startTime → ¬ segmentsOverlap s1 s2 := by
    intro s1 s2 _hm1 _hm2 hle hov
    unfold segmentsOverlap at hov
    have hmn : min s1.endTime s2.endTime ≤ s1.endTime := min_le_left _ _
    have hmx : s2.startTime ≤ max s1.startTime s2.startTime := le_max_right _ _
    linarith
  exact List.Pairwise.imp_of_mem (fun hm1 hm2 h => this _ _ hm1 hm2 h) hP

/-- C5 (witness): the amended disjointness theorem applied to a concrete
well-ordered two-word input. -/
theorem segmentWords_disjoint_witness :
    ((segmentWords [⟨"a", 0, 1⟩, ⟨"b", 2, 3⟩] 3).Pairwise fun s1 s2 => s1.endTime ≤ s2.startTime) ∧
    (∀ s ∈ segmentWords [⟨"a", 0, 1⟩, ⟨"b", 2, 3⟩] 3, s.startTime ≤ s.endTime) ∧
    ((segmentWords [⟨"a", 0, 1⟩, ⟨"b", 2, 3⟩] 3).Pairwise fun s1 s2 => ¬ segmentsOverlap s1 s2) :=
  segmentWords_disjoint [⟨"a", 0, 1⟩, ⟨"b", 2, 3⟩] 3
    (by intro w hw; simp at hw; rcases hw with rfl | rfl <;> norm_num)
    (by
      refine List.pairwise_cons.mpr ⟨?_, List.pairwise_singleton _ _⟩
      intro b hb
      simp at hb
      subst hb
      norm_num)

/-- C7: the segmentation loop closes a segment exactly when the segment is
full, the next word starts after a more-than-300 ms gap, or the word is the
last one.  Consequences proved: every produced segment has between 1 and
`maxW` words; the segments partition the input words in order (every word is
emitted, so the last word always closes a segment); and inside a segment
consecutive words are never separated by more than 300 ms (a longer gap starts
a new segment even below the word limit). -/
theorem segmentWords_closing_rules (ts : List WordTimestamp) (maxW : ℕ) (hmax : 1 ≤ maxW) :
    (∀ s ∈ segmentWords ts maxW, 1 ≤ s.words.length ∧ s.words.length ≤ maxW) ∧
    ((segmentWords ts maxW).map CaptionSegment.words).flatten = ts ∧
    (∀ s ∈ segmentWords ts maxW, s.words.Chain' fun a b => b.start - a.«end» ≤ 3 / 10) := by
  refine ⟨segmentWordsGo_length maxW ts [] 0 (by simp; omega), ?_, ?_⟩
  · cases hts : ts with
    | nil => simp [segmentWords, segmentWordsGo]
    | cons t rest =>
      have h := segmentWordsGo_join maxW (t :: rest) [] 0 (by simp)
      simpa using h
  · exact segmentWordsGo_chain maxW ts [] 0 List.chain'_nil (by intro c hc; simp at hc)

/-- C7 (witness): the closing rules applied to the spec's scenario 2 — a
0.4 s gap between the second and third word with the default maximum of 3. -/
theorem segmentWords_closing_rules_witness :
    (∀ s ∈ segmentWords [⟨"w1", 0, 2/10⟩, ⟨"w2", 2/10, 4/10⟩, ⟨"w3", 8/10, 1⟩] 3,
      1 ≤ s.words.length ∧ s.words.length ≤ 3) ∧
    ((segmentWords [⟨"w1", 0, 2/10⟩, ⟨"w2", 2/10, 4/10⟩, ⟨"w3", 8/10, 1⟩] 3).map
        CaptionSegment.words).flatten = [⟨"w1", 0, 2/10⟩, ⟨"w2", 2/10, 4/10⟩, ⟨"w3", 8/10, 1⟩] ∧
    (∀ s ∈ segmentWords [⟨"w1", 0, 2/10⟩, ⟨"w2", 2/10, 4/10⟩, ⟨"w3", 8/10, 1⟩] 3,
      s.words.Chain' fun a b => b.start - a.«end» ≤ 3 / 10) :=
  segmentWords_closing_rules [⟨"w1", 0, 2/10⟩, ⟨"w2", 2/10, 4/10⟩, ⟨"w3", 8/10, 1⟩] 3
    (by norm_num)

/-- C1 (code divergence): the `\t` offsets emitted by `generateASS` are the
words' absolute video times in milliseconds, not times relative to the
segment start.  On the two-word phrase below (the repository documentation's
own example) the segment starts at `4.362 s`, and the second word's
highlight-start offset comes out as `4602` — the absolute millisecond time —
while the relative offset required by the claim is `240`. -/
theorem highlight_offsets_absolute :
    dialogueEvents "&H00FFFFFF" "&H0000D7FF"
        [⟨"Full", 4362/1000, 4562/1000⟩, ⟨"cap", 4602/1000, 4922/1000⟩] 3 =
      [(⟨4362/1000, 4922/1000, [⟨"Full", 4362/1000, 4562/1000⟩, ⟨"cap", 4602/1000, 4922/1000⟩]⟩,
        [⟨"&H00FFFFFF", [(4362, 4362, "&H0000D7FF"), (4562, 4562, "&H00FFFFFF")]⟩,
         ⟨"&H00FFFFFF", [(4602, 4602, "&H0000D7FF"), (4922, 4922, "&H00FFFFFF")]⟩])] ∧
    jsRound ((4602/1000 - 4362/1000 : ℚ) * 1000) = 240 ∧
    (4602 : ℤ) ≠ 240 := by
  refine ⟨?_, ?_, by decide⟩
  · norm_num [dialogueEvents, segmentWords, segmentWordsGo, nextGapB, wordAnimationTag,
      highlightStartMs, highlightEndMs, jsRound]
  · norm_num [jsRound]

/-- C6 (code divergence): the first word of a segment gets the same animation
tag as every other word — it starts in the primary (unhighlighted) colour and
a transition to the highlight colour is scheduled at its start offset, which
is offset `0` for a word starting at video time zero.  The claim requires the
first word to start already highlighted with no transition at offset 0. -/
theorem firstWord_transition_at_zero :
    dialogueEvents "&H00FFFFFF" "&H0000D7FF" [⟨"hi", 0, 1/2⟩] 3 =
      [(⟨0, 1/2, [⟨"hi", 0, 1/2⟩]⟩,
        [⟨"&H00FFFFFF", [(0, 0, "&H0000D7FF"), (500, 500, "&H00FFFFFF")]⟩])] ∧
    "&H00FFFFFF" ≠ "&H0000D7FF" := by
  refine ⟨?_, by decide⟩
  norm_num [dialogueEvents, segmentWords, segmentWordsGo, nextGapB, wordAnimationTag,
    highlightStartMs, highlightEndMs, jsRound]

/-! ## The dialogue timestamp formatter (`formatASSTime`) -/

/-- `Math.floor(seconds / 3600)` at `ass-generator.ts:158`. -/
def assHours (t : ℚ) : ℤ := ⌊t / 3600⌋

/-- `Math.floor((seconds % 3600) / 60)` at `ass-generator.ts:159`. -/
def assMins (t : ℚ) : ℤ := ⌊jsMod t 3600 / 60⌋

/-- `Math.floor(seconds % 60)` at `ass-generator.ts:160`. -/
def assSecs (t : ℚ) : ℤ := ⌊jsMod t 60⌋

/-- `Math.floor((seconds % 1) * 100)` at `ass-generator.ts:161`. -/
def assCentis (t : ℚ) : ℤ := ⌊jsMod t 1 * 100⌋

/-- `.toString().padStart(2, '0')` on a component (decimal digits, one zero
prepended when the representation is a single character). -/
def pad2 (n : ℤ) : String := if (toString n).length < 2 then "0" ++ toString n else toString n

/-- `formatASSTime` from `ass-generator.ts:157-164`: `H:MM:SS.CC`. -/
def formatASSTime (t : ℚ) : String :=
  toString (assHours t) ++ ":" ++ pad2 (assMins t) ++ ":" ++
    pad2 (assSecs t) ++ "." ++ pad2 (assCentis t)

theorem jsMod_eq_fract (t m : ℚ) (hm : m ≠ 0) : jsMod t m = m * Int.fract (t / m) := by
  unfold jsMod Int.fract
  field_simp

theorem jsMod_nonneg (t m : ℚ) (hm : 0 < m) : 0 ≤ jsMod t m := by
  rw [jsMod_eq_fract t m hm.ne.symm]
  exact mul_nonneg hm.le (Int.fract_nonneg _)

theorem jsMod_lt (t m : ℚ) (hm : 0 < m) : jsMod t m < m := by
  rw [jsMod_eq_fract t m hm.ne.symm]
  calc m * Int.fract (t / m) < m * 1 := by
        exact mul_lt_mul_of_pos_left (Int.fract_lt_one _) hm
    _ = m := mul_one m

theorem assMins_eq (t : ℚ) : assMins t = ⌊t / 60⌋ - 60 * ⌊t / 3600⌋ := by
  unfold assMins jsMod
  have h : (t - 3600 * (⌊t / 3600⌋ : ℚ)) / 60 = t / 60 - ((60 * ⌊t / 3600⌋ : ℤ) : ℚ) := by
    push_cast
    ring
  rw [h, Int.floor_sub_int]

theorem assSecs_eq (t : ℚ) : assSecs t = ⌊t⌋ - 60 * ⌊t / 60⌋ := by
  unfold assSecs jsMod
  have h : t - 60 * (⌊t / 60⌋ : ℚ) = t - ((60 * ⌊t / 60⌋ : ℤ) : ℚ) := by
    push_cast
    ring
  rw [h, Int.floor_sub_int]

theorem assCentis_eq (t : ℚ) : assCentis t = ⌊t * 100⌋ - 100 * ⌊t⌋ := by
  unfold assCentis jsMod
  rw [div_one]
  have h : (t - 1 * (⌊t⌋ : ℚ)) * 100 = t * 100 - ((100 * ⌊t⌋ : ℤ) : ℚ) := by
    push_cast
    ring
  rw [h, Int.floor_sub_int]

theorem pad2_length (n : ℤ) (h0 : 0 ≤ n) (h1 : n < 100) : (pad2 n).length = 2 := by
  lift n to ℕ using h0
  have hn : n < 100 := by exact_mod_cast h1
  clear h1
  revert hn
  revert n
  decide

/-- C10: the dialogue timestamp formatter truncates the seconds value to whole
centiseconds in `H:MM:SS.CC` form: the encoded components carry exactly
`⌊t·100⌋` centiseconds, the minutes/seconds/centiseconds components are in
range and rendered as two zero-padded digits, and the encoded value never
exceeds `t` and differs from it by less than 10 ms. -/
theorem formatASSTime_truncates (t : ℚ) (ht : 0 ≤ t) :
    assHours t * 360000 + assMins t * 6000 + assSecs t * 100 + assCentis t = ⌊t * 100⌋ ∧
    0 ≤ assHours t ∧
    0 ≤ assMins t ∧ assMins t < 60 ∧
    0 ≤ assSecs t ∧ assSecs t < 60 ∧
    0 ≤ assCentis t ∧ assCentis t < 100 ∧
    (⌊t * 100⌋ : ℚ) / 100 ≤ t ∧ t - (⌊t * 100⌋ : ℚ) / 100 < 1 / 100 ∧
    formatASSTime t = toString (assHours t) ++ ":" ++ pad2 (assMins t) ++ ":" ++
      pad2 (assSecs t) ++ "." ++ pad2 (assCentis t) ∧
    (pad2 (assMins t)).length = 2 ∧ (pad2 (assSecs t)).length = 2 ∧
    (pad2 (assCentis t)).length = 2 := by
  have hm3600 : (0 : ℚ) < 3600 := by norm_num
  have hm60 : (0 : ℚ) < 60 := by norm_num
  have hm1 : (0 : ℚ) < 1 := by norm_num
  have hmins0 : 0 ≤ assMins t :=
    Int.floor_nonneg.mpr (div_nonneg (jsMod_nonneg t 3600 hm3600) (by norm_num))
  have hminslt : assMins t < 60 := by
    unfold assMins
    rw [Int.floor_lt]
    push_cast
    rw [div_lt_iff₀ hm60]
    have := jsMod_lt t 3600 hm3600
    linarith
  have hsecs0 : 0 ≤ assSecs t := Int.floor_nonneg.mpr (jsMod_nonneg t 60 hm60)
  have hsecslt : assSecs t < 60 := by
    unfold assSecs
    rw [Int.floor_lt]
    push_cast
    have := jsMod_lt t 60 hm60
    linarith
  have hcent0 : 0 ≤ assCentis t :=
    Int.floor_nonneg.mpr (mul_nonneg (jsMod_nonneg t 1 hm1) (by norm_num))
  have hcentlt : assCentis t < 100 := by
    unfold assCentis
    rw [Int.floor_lt]
    push_cast
    have := jsMod_lt t 1 hm1
    linarith
  have hfl := Int.floor_le (t * 100)
  have hfl2 := Int.lt_floor_add_one (t * 100)
  refine ⟨?_, ?_, hmins0, hminslt, hsecs0, hsecslt, hcent0, hcentlt, ?_, ?_, rfl,
    pad2_length _ hmins0 (by omega), pad2_length _ hsecs0 (by omega),
    pad2_length _ hcent0 hcentlt⟩
  · rw [assMins_eq, assSecs_eq, assCentis_eq]
    unfold assHours
    ring
  · exact Int.floor_nonneg.mpr (div_nonneg ht (by norm_num))
  · rw [div_le_iff₀ (by norm_num : (0 : ℚ) < 100)]
    linarith
  · rw [sub_lt_iff_lt_add, div_add_div_same, lt_div_iff₀ (by norm_num : (0 : ℚ) < 100)]
    linarith

/-- C10 (witness): the formatter theorem applied at `t = 4.362 s`
(encoded as `0:00:04.36`). -/
theorem formatASSTime_truncates_witness :
    assHours (4362/1000) * 360000 + assMins (4362/1000) * 6000 +
        assSecs (4362/1000) * 100 + assCentis (4362/1000) = ⌊(4362/1000 : ℚ) * 100⌋ ∧
    0 ≤ assHours (4362/1000 : ℚ) ∧
    0 ≤ assMins (4362/1000 : ℚ) ∧ assMins (4362/1000 : ℚ) < 60 ∧
    0 ≤ assSecs (4362/1000 : ℚ) ∧ assSecs (4362/1000 : ℚ) < 60 ∧
    0 ≤ assCentis (4362/1000 : ℚ) ∧ assCentis (4362/1000 : ℚ) < 100 ∧
    (⌊(4362/1000 : ℚ) * 100⌋ : ℚ) / 100 ≤ (4362/1000 : ℚ) ∧
    (4362/1000 : ℚ) - (⌊(4362/1000 : ℚ) * 100⌋ : ℚ) / 100 < 1 / 100 ∧
    formatASSTime (4362/1000) = toString (assHours (4362/1000)) ++ ":" ++
      pad2 (assMins (4362/1000)) ++ ":" ++ pad2 (assSecs (4362/1000)) ++ "." ++
      pad2 (assCentis (4362/1000)) ∧
    (pad2 (assMins (4362/1000 : ℚ))).length = 2 ∧
    (pad2 (assSecs (4362/1000 : ℚ))).length = 2 ∧
    (pad2 (assCentis (4362/1000 : ℚ))).length = 2 :=
  formatASSTime_truncates (4362/1000) (by norm_num)

/-! ## Background fit (cover scale + center crop) -/

/-- The scale factor applied by the engine's
`scale=W:H:force_original_aspect_ratio=increase` stage, emitted at
`processor.ts:441`.  Modelled from the spec's definition of cover scaling:
the larger of the two per-axis factors required to reach the target. -/
def coverScaleFactor (srcW srcH tgtW tgtH : ℚ) : ℚ :=
  max (tgtW / srcW) (tgtH / srcH)

/-- The result of the background-fit stage: the cover-scaled dimensions and
the crop window requested by `crop=W:H`. -/
structure FittedBackground where
  scaledW : ℚ
  scaledH : ℚ
  cropW : ℚ
  cropH : ℚ
deriving DecidableEq

/-- The background-fit stage of `processVideoCompose` (`processor.ts:437-441`):
cover-scale the source to the target resolution, then center-crop to the
exact target dimensions. -/
def fitBackground (srcW srcH tgtW tgtH : ℚ) : FittedBackground :=
  { scaledW := srcW * coverScaleFactor srcW srcH tgtW tgtH
    scaledH := srcH * coverScaleFactor srcW srcH tgtW tgtH
    cropW := tgtW
    cropH := tgtH }

/-- C3: for every positive source resolution and every target resolution, the
cover-scaled background is at least as large as the crop window on both axes —
the center crop never exceeds the available pixels, for any aspect ratio. -/
theorem coverScale_crop_within_bounds (srcW srcH tgtW tgtH : ℚ)
    (hw : 0 < srcW) (hh : 0 < srcH) :
    (fitBackground srcW srcH tgtW tgtH).cropW ≤ (fitBackground srcW srcH tgtW tgtH).scaledW ∧
    (fitBackground srcW srcH tgtW tgtH).cropH ≤ (fitBackground srcW srcH tgtW tgtH).scaledH := by
  unfold fitBackground coverScaleFactor
  constructor
  · calc tgtW = srcW * (tgtW / srcW) := by field_simp
      _ ≤ srcW * max (tgtW / srcW) (tgtH / srcH) :=
          mul_le_mul_of_nonneg_left (le_max_left _ _) hw.le
  · calc tgtH = srcH * (tgtH / srcH) := by field_simp
      _ ≤ srcH * max (tgtW / srcW) (tgtH / srcH) :=
          mul_le_mul_of_nonneg_left (le_max_right _ _) hh.le

/-- C3 (witness): the cover-scale invariant at the spec's example — a
`606×1080` source fitted to a `1080×1920` target. -/
theorem coverScale_crop_within_bounds_witness :
    (fitBackground 606 1080 1080 1920).cropW ≤ (fitBackground 606 1080 1080 1920).scaledW ∧
    (fitBackground 606 1080 1080 1920).cropH ≤ (fitBackground 606 1080 1080 1920).scaledH :=
  coverScale_crop_within_bounds 606 1080 1080 1920 (by norm_num) (by norm_num)

/-! ## Proportional overlay sizing -/

/-- `targetWidth` from `processVideoOverlay` (part_005 line 700):
`Math.round(videoWidth * overlayScale)`. -/
def overlayTargetWidth (videoWidth overlayScale : ℚ) : ℤ :=
  jsRound (videoWidth * overlayScale)

/-- `targetHeight` from `processVideoOverlay` (part_005 line 701):
`Math.round((targetWidth * ovlHeight) / ovlWidth)` — the aspect ratio comes
from the overlay's own probed dimensions. -/
def overlayTargetHeight (videoWidth overlayScale ovlWidth ovlHeight : ℚ) : ℤ :=
  jsRound ((overlayTargetWidth videoWidth overlayScale : ℚ) * ovlHeight / ovlWidth)

/-- The spec's wording of the overlay sizing rule: target width
`round(W·s)`. -/
def overlaySpecWidth (W s : ℚ) : ℤ := jsRound (W * s)

/-- The spec's wording of the overlay sizing rule: target height
`round(targetWidth·h/w)`. -/
def overlaySpecHeight (W s w h : ℚ) : ℤ :=
  jsRound ((overlaySpecWidth W s : ℚ) * h / w)

/-- C8: the overlay scaler computes exactly the spec's formulas, and on the
spec's example — a `500×200` overlay over a `1280`-wide background at scale
`0.22` — it yields `282×113`. -/
theorem overlay_sizing_matches_spec (W s w h : ℚ) (_hw : 0 < w) :
    overlayTargetWidth W s = overlaySpecWidth W s ∧
    overlayTargetHeight W s w h = overlaySpecHeight W s w h ∧
    overlayTargetWidth 1280 (22/100) = 282 ∧
    overlayTargetHeight 1280 (22/100) 500 200 = 113 := by
  refine ⟨rfl, rfl, ?_, ?_⟩
  · norm_num [overlayTargetWidth, jsRound]
  · norm_num [overlayTargetHeight, overlayTargetWidth, jsRound]

/-- C8 (witness): the sizing theorem at the spec's own probe values. -/
theorem overlay_sizing_matches_spec_witness :
    overlayTargetWidth 1280 (22/100) = overlaySpecWidth 1280 (22/100) ∧
    overlayTargetHeight 1280 (22/100) 500 200 = overlaySpecHeight 1280 (22/100) 500 200 ∧
    overlayTargetWidth 1280 (22/100) = 282 ∧
    overlayTargetHeight 1280 (22/100) 500 200 = 113 :=
  overlay_sizing_matches_spec 1280 (22/100) 500 200 (by norm_num)

/-! ## Transition/merge compiler (`processVideoMerge`) -/

/-- Per-clip trim bounds from the merge request (`{ start?, end? }`). -/
structure TrimBounds where
  start : Option ℚ
  «end» : Option ℚ
deriving DecidableEq

/-- JavaScript `x || d` on an optional number: `undefined` and `0` are falsy
and yield the default. -/
def jsOrQ (x : Option ℚ) (dflt : ℚ) : ℚ :=
  match x with
  | none => dflt
  | some v => if v = 0 then dflt else v

/-- Effective clip duration from `processVideoMerge` (part_005 lines 804-807):
`start = trim?.start || 0`, `end = trim?.end || fullDuration`, then
`Math.min(end, fullDuration) - start`. -/
def effectiveDuration (trim : Option TrimBounds) (fullDuration : ℚ) : ℚ :=
  min (jsOrQ (trim.bind TrimBounds.«end») fullDuration) fullDuration -
    jsOrQ (trim.bind TrimBounds.start) 0

/-- The `cumulativeOffset` accumulation of the xfade chain (part_005 lines
898-907): each step adds `durations[i-1] - transitionDuration` and records
the running total as the next transition's offset. -/
def xfadeOffsetsGo (t acc : ℚ) : List ℚ → List ℚ
  | [] => []
  | d :: rest => (acc + (d - t)) :: xfadeOffsetsGo t (acc + (d - t)) rest

/-- The list of xfade offsets: the chain loop runs once per transition, i.e.
over all clip durations except the last. -/
def xfadeOffsets (durations : List ℚ) (t : ℚ) : List ℚ :=
  xfadeOffsetsGo t 0 durations.dropLast

/-- Modelled from the spec: the engine's `xfade` primitive (an out-of-scope
external collaborator, spec §1/§6) starts the transition `offset` seconds into
the combined first stream and then plays out the second stream, so the
combined output lasts `offset + d2` seconds. -/
def xfadePairDuration (offset d2 : ℚ) : ℚ := offset + d2

/-- Output duration of the chained crossfade merge: a single clip passes
through unchanged; otherwise the last transition of the chain determines the
total as its offset plus the last clip's effective duration. -/
def mergedOutputDuration (durations : List ℚ) (t : ℚ) : ℚ :=
  match durations with
  | [] => 0
  | [d] => d
  | _ :: _ :: _ =>
    xfadePairDuration ((xfadeOffsets durations t).getLastD 0) (durations.getLastD 0)

theorem xfadeOffsetsGo_getElem (t : ℚ) :
    ∀ (ds : List ℚ) (acc : ℚ) (i : ℕ), i < ds.length →
      (xfadeOffsetsGo t acc ds)[i]? = some (acc + (ds.take (i + 1)).sum - (i + 1) * t) := by
  intro ds
  induction ds with
  | nil =>
    intro acc i hi
    simp at hi
  | cons d rest ih =>
    intro acc i hi
    cases i with
    | zero =>
      simp [xfadeOffsetsGo]
      ring
    | succ k =>
      have hk : k < rest.length := by simpa using hi
      rw [xfadeOffsetsGo]
      simp only [List.getElem?_cons_succ]
      rw [ih (acc + (d - t)) k hk]
      congr 1
      simp [List.take_succ_cons]
      ring

theorem xfadeOffsetsGo_getLastD (t : ℚ) :
    ∀ (ds : List ℚ) (acc dflt : ℚ), ds ≠ [] →
      (xfadeOffsetsGo t acc ds).getLastD dflt = acc + ds.sum - ds.length * t := by
  intro ds
  induction ds with
  | nil =>
    intro acc dflt h
    exact absurd rfl h
  | cons d rest ih =>
    intro acc dflt _
    rw [xfadeOffsetsGo]
    cases hrest : rest with
    | nil =>
      subst hrest
      simp [xfadeOffsetsGo, List.getLastD]
      ring
    | cons r rest' =>
      subst hrest
      rw [List.getLastD_cons]
      rw [ih (acc + (d - t)) (acc + (d - t)) (by simp)]
      simp
      ring

theorem xfadeOffsetsGo_length (t : ℚ) :
    ∀ (ds : List ℚ) (acc : ℚ), (xfadeOffsetsGo t acc ds).length = ds.length := by
  intro ds
  induction ds with
  | nil => intro acc; simp [xfadeOffsetsGo]
  | cons d rest ih => intro acc; simp [xfadeOffsetsGo, ih]

/-- C4 (counterexample to the parenthetical definition of effective duration):
a clip trimmed with `end: 0` is given its full probed duration — JavaScript's
`||` treats the `0` bound as absent — while `min(trim end, probed duration) −
trim start` would be `0`. -/
theorem effectiveDuration_zero_trimEnd_cex :
    effectiveDuration (some ⟨some 0, some 0⟩) 10 = 10 ∧
    min (0 : ℚ) 10 - 0 = 0 ∧ (10 : ℚ) ≠ 0 := by
  refine ⟨?_, by norm_num, by norm_num⟩
  simp [effectiveDuration, jsOrQ]

/-- C4 (amended): for trim bounds whose end is absent or positive, the
effective duration is `min(trim end, probed duration) − trim start`; the
fade-in offset recorded for clip `i+1` is the cumulative sum of
`(d_j − transitionDuration)` over all preceding clips, and the chained output
duration is `Σ d_i − (n−1)·t`; on the spec's example (`10 s, 8 s, 12 s`,
crossfade `1 s`) the offsets are `9 s` and `16 s` and the output `28 s`. -/
theorem xfade_offsets_and_duration (ds : List ℚ) (t : ℚ) (s e full : ℚ)
    (hds : ds ≠ []) (he : e ≠ 0) :
    effectiveDuration (some ⟨some s, some e⟩) full = min e full - s ∧
    (∀ i, i < (xfadeOffsets ds t).length →
      (xfadeOffsets ds t)[i]? = some ((ds.take (i + 1)).sum - (i + 1) * t)) ∧
    (xfadeOffsets ds t).length = ds.length - 1 ∧
    mergedOutputDuration ds t = ds.sum - ((ds.length - 1 : ℕ) : ℚ) * t ∧
    xfadeOffsets [10, 8, 12] 1 = [9, 16] ∧
    mergedOutputDuration [10, 8, 12] 1 = 28 := by
  refine ⟨?_, ?_, ?_, ?_, ?_, ?_⟩
  · simp [effectiveDuration, jsOrQ, he]
    exact fun h => h.symm
  · intro i hi
    rw [xfadeOffsets] at hi ⊢
    rw [xfadeOffsetsGo_length] at hi
    rw [xfadeOffsetsGo_getElem t ds.dropLast 0 i hi]
    congr 2
    rw [List.length_dropLast] at hi
    have htake : ds.dropLast.take (i + 1) = ds.take (i + 1) := by
      rw [List.dropLast_eq_take, List.take_take]
      congr 1
      omega
    rw [htake]
    ring
  · rw [xfadeOffsets, xfadeOffsetsGo_length, List.length_dropLast]
  · cases hd : ds with
    | nil => exact absurd hd hds
    | cons d1 rest1 =>
      cases hr : rest1 with
      | nil =>
        simp [mergedOutputDuration]
      | cons d2 rest2 =>
        have hdrop_ne : (d1 :: d2 :: rest2).dropLast ≠ [] := by
          simp [List.dropLast_cons₂]
        have hlast := xfadeOffsetsGo_getLastD t (d1 :: d2 :: rest2).dropLast 0 0 hdrop_ne
        have hne2 : (d1 :: d2 :: rest2) ≠ [] := by simp
        have hsplit := List.dropLast_append_getLast hne2
        have hsum : (d1 :: d2 :: rest2).dropLast.sum + (d1 :: d2 :: rest2).getLast hne2 =
            (d1 :: d2 :: rest2).sum := by
          conv_rhs => rw [← hsplit]
          rw [List.sum_append]
          simp
        have hlastD : (d1 :: d2 :: rest2).getLastD 0 = (d1 :: d2 :: rest2).getLast hne2 := by
          rw [List.getLastD_eq_getLast?, List.getLast?_eq_getLast _ hne2]
          rfl
        rw [mergedOutputDuration, xfadePairDuration, xfadeOffsets, hlast, hlastD]
        rw [List.length_dropLast]
        push_cast [List.length_cons]
        linarith
  · norm_num [xfadeOffsets, xfadeOffsetsGo, List.dropLast]
  · norm_num [mergedOutputDuration, xfadePairDuration, xfadeOffsets, xfadeOffsetsGo,
      List.dropLast, List.getLastD]

/-- C4 (witness): the merge theorem applied at the spec's example durations
with a positive trim end. -/
theorem xfade_offsets_and_duration_witness :
    effectiveDuration (some ⟨some 0, some 5⟩) 10 = min 5 10 - 0 ∧
    (∀ i, i < (xfadeOffsets ([10, 8, 12] : List ℚ) 1).length →
      (xfadeOffsets ([10, 8, 12] : List ℚ) 1)[i]? =
        some ((([10, 8, 12] : List ℚ).take (i + 1)).sum - (i + 1) * 1)) ∧
    (xfadeOffsets ([10, 8, 12] : List ℚ) 1).length = ([10, 8, 12] : List ℚ).length - 1 ∧
    mergedOutputDuration ([10, 8, 12] : List ℚ) 1 =
      ([10, 8, 12] : List ℚ).sum - ((([10, 8, 12] : List ℚ).length - 1 : ℕ) : ℚ) * 1 ∧
    xfadeOffsets ([10, 8, 12] : List ℚ) 1 = [9, 16] ∧
    mergedOutputDuration ([10, 8, 12] : List ℚ) 1 = 28 :=
  xfade_offsets_and_duration ([10, 8, 12] : List ℚ) 1 0 5 10 (by simp) (by norm_num)

/-! ## Filter-graph stage order in `processVideoCompose` -/

/-- JavaScript truthiness of an optional string (`!!x`): absent and empty
strings are falsy. -/
def jsTruthyStr : Option String → Bool
  | none => false
  | some s => !s.isEmpty

/-- The stages of the video filter chain built by `processVideoCompose`. -/
inductive ComposeStage where
  | bgFit
  | assBurn
  | drawtextWatermark
  | overlayWatermark
deriving DecidableEq

/-- The video filter chain assembled at `processor.ts:437-520`, in filter
order.  `useTextWatermark = !!watermarkText` takes priority; the image
variant applies only when no text is given (`!useTextWatermark &&
!!watermarkUrl`).  In the text branch the caption burn runs before the
drawtext watermark and is skipped for an empty timestamp list; in the image
branch the overlay is composited onto `[bg]` first and the `ass` filter runs
last, unconditionally; with no watermark the `ass` filter always runs. -/
def composeVideoChain (watermarkText watermarkUrl : Option String)
    (wordTimestamps : List WordTimestamp) : List ComposeStage :=
  ComposeStage.bgFit ::
    (if jsTruthyStr watermarkText then
      (if 0 < wordTimestamps.length then
        [ComposeStage.assBurn, ComposeStage.drawtextWatermark]
      else [ComposeStage.drawtextWatermark])
    else if !jsTruthyStr watermarkText && jsTruthyStr watermarkUrl then
      [ComposeStage.overlayWatermark, ComposeStage.assBurn]
    else
      [ComposeStage.assBurn])

/-- C2 (counterexample): with an image watermark and a non-empty timestamp
list, the chain composites the watermark onto the background first and burns
the captions last — captions render on top of the watermark, the reverse of
the claimed fixed order. -/
theorem imageWatermark_before_captions_cex :
    composeVideoChain none (some "https://cdn.example.com/logo.png") [⟨"hi", 0, 1⟩] =
      [ComposeStage.bgFit, ComposeStage.overlayWatermark, ComposeStage.assBurn] ∧
    (composeVideoChain none (some "https://cdn.example.com/logo.png")
        [⟨"hi", 0, 1⟩]).indexOf ComposeStage.overlayWatermark <
      (composeVideoChain none (some "https://cdn.example.com/logo.png")
        [⟨"hi", 0, 1⟩]).indexOf ComposeStage.assBurn := by
  constructor
  · rfl
  · decide

/-- C2 (amended): background-fit is always the first stage.  With a text
watermark, captions are burned before the drawtext watermark (watermark on
top) and the caption stage is omitted exactly when the timestamp list is
empty.  With an image watermark, the overlay is composited first and the
caption filter runs last — captions on top — even for an empty timestamp
list.  With no watermark the caption filter is always the final stage. -/
theorem composeVideoChain_order (watermarkText watermarkUrl : Option String)
    (ts : List WordTimestamp) :
    (composeVideoChain watermarkText watermarkUrl ts).head? = some ComposeStage.bgFit ∧
    (jsTruthyStr watermarkText = true →
      composeVideoChain watermarkText watermarkUrl ts =
        if 0 < ts.length then
          [ComposeStage.bgFit, ComposeStage.assBurn, ComposeStage.drawtextWatermark]
        else [ComposeStage.bgFit, ComposeStage.drawtextWatermark]) ∧
    (jsTruthyStr watermarkText = false → jsTruthyStr watermarkUrl = true →
      composeVideoChain watermarkText watermarkUrl ts =
        [ComposeStage.bgFit, ComposeStage.overlayWatermark, ComposeStage.assBurn]) ∧
    (jsTruthyStr watermarkText = false → jsTruthyStr watermarkUrl = false →
      composeVideoChain watermarkText watermarkUrl ts =
        [ComposeStage.bgFit, ComposeStage.assBurn]) := by
  refine ⟨rfl, ?_, ?_, ?_⟩
  · intro hT
    by_cases hts : 0 < ts.length <;> simp [composeVideoChain, hT, hts]
  · intro hT hU
    simp [composeVideoChain, hT, hU]
  · intro hT hU
    simp [composeVideoChain, hT, hU]

/-- C2 (witness): the stage-order theorem at a concrete text-watermark
request with one timestamp. -/
theorem composeVideoChain_order_witness :
    (composeVideoChain (some "EasyBrainrot.com") none [⟨"hi", 0, 1⟩]).head? =
      some ComposeStage.bgFit ∧
    (jsTruthyStr (some "EasyBrainrot.com") = true →
      composeVideoChain (some "EasyBrainrot.com") none [⟨"hi", 0, 1⟩] =
        if 0 < ([⟨"hi", 0, 1⟩] : List WordTimestamp).length then
          [ComposeStage.bgFit, ComposeStage.assBurn, ComposeStage.drawtextWatermark]
        else [ComposeStage.bgFit, ComposeStage.drawtextWatermark]) ∧
    (jsTruthyStr (some "EasyBrainrot.com") = false → jsTruthyStr none = true →
      composeVideoChain (some "EasyBrainrot.com") none [⟨"hi", 0, 1⟩] =
        [ComposeStage.bgFit, ComposeStage.overlayWatermark, ComposeStage.assBurn]) ∧
    (jsTruthyStr (some "EasyBrainrot.com") = false → jsTruthyStr none = false →
      composeVideoChain (some "EasyBrainrot.com") none [⟨"hi", 0, 1⟩] =
        [ComposeStage.bgFit, ComposeStage.assBurn]) :=
  composeVideoChain_order (some "EasyBrainrot.com") none [⟨"hi", 0, 1⟩]

/-! ## Job orchestration outcomes of `processVideoCompose` -/

/-- The environment of one `processVideoCompose` run: whether each external
step (asset downloads, the engine invocation, the object-storage upload)
succeeds, the storage mode, and the values the collaborators produce. -/
structure ComposeRun where
  downloadsOk : Bool
  engineOk : Bool
  uploadOk : Bool
  storageS3 : Bool
  uploadedUrl : String
  errorMessage : String
  jobDir : String
deriving DecidableEq

/-- The `JobResult` shape returned by the processor: a success flag with
either an uploaded URL / local output path or an error message. -/
structure JobResult where
  success : Bool
  outputUrl : Option String
  outputPath : Option String
  error : Option String
deriving DecidableEq

/-- A job outcome together with whether the per-job temp directory was
removed. -/
structure ComposeOutcome where
  result : JobResult
  workspaceDeleted : Bool
deriving DecidableEq

/-- Control flow of `processVideoCompose` (`processor.ts:362-592`): any stage
throwing lands in the catch block, which removes the job directory and
returns `success: false` with a prefixed error message and no output; on
success with `STORAGE_MODE === 's3'` the output is uploaded, the job
directory removed and the URL returned; otherwise the local output path
inside the job directory is returned and the directory is kept. -/
def processVideoCompose (run : ComposeRun) : ComposeOutcome :=
  if !run.downloadsOk then
    ⟨⟨false, none, none, some ("Failed to compose video: " ++ run.errorMessage)⟩, true⟩
  else if !run.engineOk then
    ⟨⟨false, none, none, some ("Failed to compose video: " ++ run.errorMessage)⟩, true⟩
  else if run.storageS3 then
    if !run.uploadOk then
      ⟨⟨false, none, none, some ("Failed to compose video: " ++ run.errorMessage)⟩, true⟩
    else
      ⟨⟨true, some run.uploadedUrl, none, none⟩, true⟩
  else
    ⟨⟨true, none, some (run.jobDir ++ "/output.mp4"), none⟩, false⟩

/-- C9 (counterexample): in local-output mode a fully successful run returns
`success: true` but keeps the per-job workspace (it contains the returned
output file), so the workspace is not deleted on every success path. -/
theorem compose_workspace_kept_local_cex :
    (processVideoCompose ⟨true, true, true, false, "", "", "/tmp/job1"⟩).result.success = true ∧
    (processVideoCompose ⟨true, true, true, false, "", "", "/tmp/job1"⟩).workspaceDeleted
      = false := by
  exact ⟨rfl, rfl⟩

/-- C9 (amended): a run fails exactly when a download, the engine, or (in S3
mode) the upload fails; every failure reports a prefixed error message, no
output URL, and a deleted workspace; a success in S3 mode returns the
uploaded URL and deletes the workspace; a success in local mode returns the
output path inside the workspace and keeps the workspace. -/
theorem compose_outcome_spec (run : ComposeRun) :
    ((processVideoCompose run).result.success = false →
      (processVideoCompose run).result.outputUrl = none ∧
      (processVideoCompose run).result.error =
        some ("Failed to compose video: " ++ run.errorMessage) ∧
      (processVideoCompose run).workspaceDeleted = true) ∧
    ((processVideoCompose run).result.success = false ↔
      (run.downloadsOk = false ∨ run.engineOk = false ∨
        (run.storageS3 = true ∧ run.uploadOk = false))) ∧
    (run.storageS3 = true → (processVideoCompose run).result.success = true →
      (processVideoCompose run).workspaceDeleted = true ∧
      (processVideoCompose run).result.outputUrl = some run.uploadedUrl) ∧
    (run.storageS3 = false → (processVideoCompose run).result.success = true →
      (processVideoCompose run).workspaceDeleted = false ∧
      (processVideoCompose run).result.outputUrl = none ∧
      (processVideoCompose run).result.outputPath = some (run.jobDir ++ "/output.mp4")) := by
  obtain ⟨d, e, u, s3, url, msg, dir⟩ := run
  cases d <;> cases e <;> cases u <;> cases s3 <;> simp [processVideoCompose]

/-- C9 (witness): the outcome theorem at a fully successful S3-mode run. -/
theorem compose_outcome_spec_witness :
    ((processVideoCompose ⟨true, true, true, true, "https://cdn/x.mp4", "", "/tmp/j"⟩).result.success = false →
      (processVideoCompose ⟨true, true, true, true, "https://cdn/x.mp4", "", "/tmp/j"⟩).result.outputUrl = none ∧
      (processVideoCompose ⟨true, true, true, true, "https://cdn/x.mp4", "", "/tmp/j"⟩).result.error =
        some ("Failed to compose video: " ++ "") ∧
      (processVideoCompose ⟨true, true, true, true, "https://cdn/x.mp4", "", "/tmp/j"⟩).workspaceDeleted = true) ∧
    ((processVideoCompose ⟨true, true, true, true, "https://cdn/x.mp4", "", "/tmp/j"⟩).result.success = false ↔
      (true = false ∨ true = false ∨ (true = true ∧ true = false))) ∧
    (true = true →
      (processVideoCompose ⟨true, true, true, true, "https://cdn/x.mp4", "", "/tmp/j"⟩).result.success = true →
      (processVideoCompose ⟨true, true, true, true, "https://cdn/x.mp4", "", "/tmp/j"⟩).workspaceDeleted = true ∧
      (processVideoCompose ⟨true, true, true, true, "https://cdn/x.mp4", "", "/tmp/j"⟩).result.outputUrl =
        some "https://cdn/x.mp4") ∧
    (true = false →
      (processVideoCompose ⟨true, true, true, true, "https://cdn/x.mp4", "", "/tmp/j"⟩).result.success = true →
      (processVideoCompose ⟨true, true, true, true, "https://cdn/x.mp4", "", "/tmp/j"⟩).workspaceDeleted = false ∧
      (processVideoCompose ⟨true, true, true, true, "https://cdn/x.mp4", "", "/tmp/j"⟩).result.outputUrl = none ∧
      (processVideoCompose ⟨true, true, true, true, "https://cdn/x.mp4", "", "/tmp/j"⟩).result.outputPath =
        some ("/tmp/j" ++ "/output.mp4")) :=
  compose_outcome_spec ⟨true, true, true, true, "https://cdn/x.mp4", "", "/tmp/j"⟩

end FfmpegRest
